import Mathlib

/-!
Shallow embedding of `cmd/gocharm/gocharm.go` (the gocharm charm build
pipeline) together with theorems checking the repository specification
against it.

Modelling conventions:
* file-system paths are lists of components (`filepath.Join a b` is
  `a ++ [b]`, `filepath.Base` is the last component);
* the on-disk state is an association list from paths to file data;
  descriptor files whose concrete bytes are produced by the external
  YAML library (out of scope per the spec) are stored structurally;
* external process outcomes (`git init`, `godep save`) are inputs of the
  embedded functions;
* Go `panic` is modelled by `Option`/`Except` error results.
-/

namespace Gocharm

/-! ## Constants from the source -/

def hookPackage : String := "github.com/juju/gocharm/hook"

def autogenMessage : String := "This file is automatically generated. Do not edit."

def godepPath : String := "github.com/tools/godep"

def yamlAutogenComment : String := "# " ++ autogenMessage ++ "\n"

/-! ## Data model (types of gopkg.in/juju/charm.v4 used by the code) -/

/-- Role constant `charm.RoleProvider`. -/
def roleProvider : String := "provider"

/-- Role constant `charm.RoleRequirer`. -/
def roleRequirer : String := "requirer"

/-- Role constant `charm.RolePeer`. -/
def rolePeer : String := "peer"

/-- The fields of `charm.Relation` that the build pipeline reads or copies. -/
structure Relation where
  relName : String
  role : String
  iface : String
  deriving DecidableEq

/-- The fields of `charm.Option` (a config option). The default value is
kept abstract as an optional string. -/
structure COption where
  ctype : String
  description : String
  defaultVal : Option String
  deriving DecidableEq

/-- The fields of `charm.Meta` that `writeMeta` reads and rewrites. -/
structure Meta where
  name : String
  summary : String
  provides : List (String × Relation)
  requires : List (String × Relation)
  peers : List (String × Relation)
  deriving DecidableEq

/-- The wrapper written by `writeConfig`: `charm.Config{Options: config}`. -/
structure ConfigData where
  options : List (String × COption)
  deriving DecidableEq

/-- The introspected registration snapshot returned by
`registeredCharmInfo` (hook names, relations, config schema). -/
structure CharmInfo where
  hooks : List String
  relations : List (String × Relation)
  config : List (String × COption)
  deriving DecidableEq

/-! ## File system model -/

/-- A path, as its components. -/
abbrev Path := List String

/-- Contents of a file in the bundle. Descriptor files are stored
structurally because their byte serialization is done by the external
YAML library, which the spec places out of scope. -/
inductive FileData where
  /-- A plain text file with known contents (hook stubs, scripts). -/
  | text : String → FileData
  /-- The compiled executable produced by `go build`. -/
  | binary : FileData
  /-- The transient `.git` tree created by `git init`. -/
  | gitDir : FileData
  /-- `metadata.yaml`: autogeneration banner plus the YAML marshalling
  of the given metadata value. -/
  | metaFile : Meta → FileData
  /-- `config.yaml`: autogeneration banner plus the YAML marshalling of
  the given config wrapper. -/
  | configFile : ConfigData → FileData
  deriving DecidableEq

/-- The file system: an association list from paths to file data. -/
abbrev FS := List (Path × FileData)

/-- Write (create or overwrite) the file at `p`. -/
def fsWrite (fs : FS) (p : Path) (d : FileData) : FS :=
  match fs with
  | [] => [(p, d)]
  | (q, e) :: rest => if q = p then (p, d) :: rest else (q, e) :: fsWrite rest p d

/-- Read the file at `p`, if present. -/
def fsRead (fs : FS) (p : Path) : Option FileData :=
  match fs with
  | [] => none
  | (q, e) :: rest => if q = p then some e else fsRead rest p

/-- `os.RemoveAll`: remove everything at or under `p`. -/
def fsRemoveAll (fs : FS) (p : Path) : FS :=
  fs.filter (fun e => !(p.isPrefixOf e.1))

/-- `filepath.Base` on a component list. -/
def pathBase (p : Path) : String := p.getLastD ""

/-! ## setenv (gocharm.go lines 289-302) -/

/-- Index of the first `'='` in a character list (`none` when absent). -/
def eqIndexAux : List Char → Option Nat
  | [] => none
  | c :: cs => if c == '=' then some 0 else (eqIndexAux cs).map (fun i => i + 1)

/-- Index of the first `'='` in `entry`, mirroring
`strings.Index(entry, "=")` (`none` for Go's `-1`). -/
def eqIndex (entry : String) : Option Nat :=
  eqIndexAux entry.toList

/-- `strings.HasPrefix(s, pre)`, at the character level (equivalent to
the byte-level test of Go for well-formed strings). -/
def goHasPrefix (s pre : String) : Bool :=
  pre.toList.isPrefixOf s.toList

/-- The replacement loop of `setenv`: replace the first element starting
with `pre`, or append `entry` when none does. -/
def setenvLoop (entry pre : String) : List String → List String
  | [] => [entry]
  | e :: rest => if goHasPrefix e pre then entry :: rest else e :: setenvLoop entry pre rest

/-- `setenv(env, entry)`. `none` models the Go `panic` taken when the
entry contains no `'='`; otherwise the prefix searched for is
`entry[0 : i+1]` where `i` is the index of the first `'='`. -/
def setenv (env : List String) (entry : String) : Option (List String) :=
  match eqIndex entry with
  | none => none
  | some i => some (setenvLoop entry ((entry.toList.take (i + 1)).asString) env)

/-- Total wrapper used where the source calls `setenv` with literals that
always contain `'='` (the panic branch is unreachable there). -/
def setenvD (env : List String) (entry : String) : List String :=
  match setenv env entry with
  | some l => l
  | none => env

/-! ## compile environment (gocharm.go lines 318-324) -/

/-- The environment `compile` hands to the toolchain: the process
environment, with three entries overridden when `crossCompile` is set
(in source order: `CGOENABLED=false`, `GOARCH=amd64`, `GOOS=linux`). -/
def compileEnv (processEnv : List String) (crossCompile : Bool) : List String :=
  if crossCompile then
    setenvD (setenvD (setenvD processEnv "CGOENABLED=false") "GOARCH=amd64") "GOOS=linux"
  else
    processEnv

/-! ## Hook stubs (gocharm.go lines 164-200) -/

/-- The text `hookStubTemplate` renders for a given build mode and hook
name, by the template's three branches. Single quotes are written
as the escape `\x27`. -/
def hookStub (source : Bool) (hookName : String) : String :=
  "#!/bin/sh\nset -ex\n" ++
  (if hookName == "install" then
    "\napt-get \x27--option=Dpkg::Options::=--force-confold\x27  \x27--option=Dpkg::options::=--force-unsafe-io\x27 --assume-yes --quiet install golang git mercurial\n\nif test -e \"$CHARM_DIR/bin/runhook\"; then\n\t# the binary has been pre-compiled; no need to compile again.\n\texit 0\nfi\nexport GOPATH=\"$CHARM_DIR\"\ngo get " ++ godepPath ++ "\n\n\"$CHARM_DIR/compile\"\n\"$CHARM_DIR/bin/runhook\" install\n"
  else if source then
    "\nif test -e \"$CHARM_DIR/compile-always\"; then\n\t\"$CHARM_DIR/compile\"\nfi\n"
  else "") ++
  "\n$CHARM_DIR/bin/runhook " ++ hookName ++ "\n"

/-- Statements of the simple shell fragment the stub template emits. -/
inductive ShStmt where
  /-- Run an external command with arguments. -/
  | cmd : String → List String → ShStmt
  /-- `if test -e <file>; then <stmt> fi`. -/
  | ifFileRuns : String → ShStmt → ShStmt
  /-- `export NAME=value` (no observable command effect). -/
  | exportVar : String → ShStmt
  /-- `exit 0`. -/
  | exitZero : ShStmt
  deriving DecidableEq

/-- The stub rendered by `hookStubTemplate`, statement by statement
(same three branches as `hookStub`). -/
def hookScript (source : Bool) (hookName : String) : List ShStmt :=
  (if hookName == "install" then
    [ .cmd "apt-get" ["--option=Dpkg::Options::=--force-confold",
        "--option=Dpkg::options::=--force-unsafe-io", "--assume-yes", "--quiet",
        "install", "golang", "git", "mercurial"],
      .ifFileRuns "$CHARM_DIR/bin/runhook" .exitZero,
      .exportVar "GOPATH=$CHARM_DIR",
      .cmd "go" ["get", godepPath],
      .cmd "$CHARM_DIR/compile" [],
      .cmd "$CHARM_DIR/bin/runhook" ["install"] ]
  else if source then
    [ .ifFileRuns "$CHARM_DIR/compile-always" (.cmd "$CHARM_DIR/compile" []) ]
  else []) ++
  [ .cmd "$CHARM_DIR/bin/runhook" [hookName] ]

/-- Execute one statement: the trace of commands run, and whether the
statement exits the whole script. `ex` answers the `test -e` probes. -/
def runStmt (ex : String → Bool) : ShStmt → List (String × List String) × Bool
  | .cmd c a => ([(c, a)], false)
  | .exportVar _ => ([], false)
  | .exitZero => ([], true)
  | .ifFileRuns f b => if ex f then runStmt ex b else ([], false)

/-- Execute a statement list, stopping at `exit`. -/
def runStmts (ex : String → Bool) : List ShStmt → List (String × List String)
  | [] => []
  | s :: rest =>
    match runStmt ex s with
    | (t, true) => t
    | (t, false) => t ++ runStmts ex rest

/-- The argument vectors with which a trace invokes the bundle's
executable `$CHARM_DIR/bin/runhook`. -/
def runhookInvocations (t : List (String × List String)) : List (List String) :=
  (t.filter (fun c => c.1 == "$CHARM_DIR/bin/runhook")).map (fun c => c.2)

/-! ## writeHooks (gocharm.go lines 136-162) -/

/-- `writeHooks`: ensures the hooks directory exists, reads the existing
directory entries (the result is only counted for a verbose log
message), then writes a fresh stub for every introspected hook name. -/
def writeHooks (source : Bool) (charmDir : Path) (hooks : List String) (fs : FS) : FS :=
  hooks.foldl (fun acc hookName =>
    fsWrite acc (charmDir ++ ["hooks", hookName]) (.text (hookStub source hookName))) fs

/-! ## writeMeta (gocharm.go lines 202-235) -/

/-- The partition loop of `writeMeta`: file each relation under the
section matching its role, failing on any other role. -/
def relPartition (m : Meta) : List (String × Relation) → Except String Meta
  | [] => .ok m
  | (name, rel) :: rest =>
    if rel.role == roleProvider then
      relPartition { m with provides := m.provides ++ [(name, rel)] } rest
    else if rel.role == roleRequirer then
      relPartition { m with requires := m.requires ++ [(name, rel)] } rest
    else if rel.role == rolePeer then
      relPartition { m with peers := m.peers ++ [(name, rel)] } rest
    else
      .error ("unknown role \"" ++ rel.role ++ "\" in relation")

/-- The metadata value `writeMeta` builds from the base descriptor read
from the package source directory before writing it: the name is
overridden with `filepath.Base(b.pkg.Dir)` and the three relation
sections are rebuilt from scratch. -/
def metaContent (pkgDir : Path) (base : Meta) (relations : List (String × Relation)) :
    Except String Meta :=
  relPartition
    { base with name := pathBase pkgDir, provides := [], requires := [], peers := [] }
    relations

/-- `writeMeta`: build the metadata value and write `metadata.yaml` into
the charm directory, or fail without writing anything. -/
def writeMeta (pkgDir charmDir : Path) (base : Meta)
    (relations : List (String × Relation)) (fs : FS) : Except String FS :=
  match metaContent pkgDir base relations with
  | .error e => .error e
  | .ok m => .ok (fsWrite fs (charmDir ++ ["metadata.yaml"]) (.metaFile m))

/-! ## writeConfig (gocharm.go lines 251-262) -/

/-- `writeConfig`: write nothing when the introspected config mapping is
empty, otherwise write `config.yaml` wrapping exactly the mapping. -/
def writeConfig (charmDir : Path) (config : List (String × COption)) (fs : FS) : FS :=
  if config.isEmpty then fs
  else fsWrite fs (charmDir ++ ["config.yaml"]) (.configFile ⟨config⟩)

/-- Modelled from the spec: `charm.ReadConfig`, the external descriptor
parser, is not part of this repository; per the spec a config descriptor
wraps the options mapping, and parsing it yields that mapping back. -/
def parseConfig (c : ConfigData) : List (String × COption) :=
  c.options

/-! ## errors of external process execution -/

/-- The shapes of error `exec.Cmd.Run` can return, as the code inspects
them: a `*exec.Error` whose cause is `exec.ErrNotFound`, some other
`*exec.Error`, or any other error (with its message). -/
inductive GoError where
  | execNotFound : GoError
  | execOther : String → GoError
  | generic : String → GoError
  deriving DecidableEq

/-- `isExecNotFound` (gocharm.go lines 352-355). -/
def isExecNotFound : GoError → Bool
  | .execNotFound => true
  | _ => false

/-- Message text of an error (used when `errors.Wrap` propagates it). -/
def GoError.msg : GoError → String
  | .execNotFound => "exec: executable file not found in $PATH"
  | .execOther s => s
  | .generic s => s

/-! ## vendorDeps (gocharm.go lines 266-287) -/

/-- The distinguished message built by `errors.Newf` when the snapshot
tool is absent. -/
def godepNotFoundMsg : String :=
  "godep executable not found; get it with: go get " ++ godepPath

/-- The errors `vendorDeps` can return; the three constructors are the
three distinct return sites of the source. -/
inductive VendorError where
  /-- `errors.Wrapf(err, "cannot git init directory")`. -/
  | gitInitFailed : GoError → VendorError
  /-- `errors.Newf("godep executable not found; ...")`. -/
  | godepNotFound : String → VendorError
  /-- `errors.Wrap(err)` for any other `godep save` failure. -/
  | godepFailed : GoError → VendorError
  deriving DecidableEq

/-- Message of a vendoring error. -/
def VendorError.msg : VendorError → String
  | .gitInitFailed e => "cannot git init directory: " ++ e.msg
  | .godepNotFound s => s
  | .godepFailed e => e.msg

/-- `vendorDeps`: run `git init` in `<charmDir>/src/runhook` (creating
`.git` there), defer removal of the `.git` tree, then run `godep save`
with GOPATH extended by the charm directory, mapping an absent `godep`
executable to the distinguished error. The deferred removal runs on
every return after `git init` succeeded. The outcomes of the two
external commands are inputs. -/
def vendorDeps (charmDir : Path) (gitInitResult : Option GoError)
    (godepResult : Option GoError) (fs : FS) : FS × Option VendorError :=
  let dir := charmDir ++ ["src", "runhook"]
  match gitInitResult with
  | some e => (fs, some (.gitInitFailed e))
  | none =>
    let fs := fsWrite fs (dir ++ [".git"]) .gitDir
    match godepResult with
    | some e =>
      (fsRemoveAll fs (dir ++ [".git"]),
       some (if isExecNotFound e then .godepNotFound godepNotFoundMsg else .godepFailed e))
    | none => (fsRemoveAll fs (dir ++ [".git"]), none)

/-! ## compile script (gocharm.go lines 365-375) -/

/-- The `compile` script installed at the bundle root in vendoring
mode. -/
def compileScript : String :=
  "#!/bin/sh\nset -e\nif test -z \"$CHARM_DIR\"; then\n\techo CHARM_DIR not set >&2\n\texit 2\nfi\nexport PATH=\"$CHARM_DIR/bin:$PATH\"\ncd \"$CHARM_DIR/src/runhook\"\nexport GOPATH=\"$CHARM_DIR:$(godep path)\"\ngo install\n"

/-! ## buildCharm (gocharm.go lines 86-131) -/

/-- The whole pipeline after a successful compile and introspection
probe: write the synthesized source and the executable (into `bin`
of the charm directory, or into the scratch directory which is then
discarded when vendoring), write the hook stubs, the metadata
descriptor, the config descriptor, and in vendoring mode run
`vendorDeps` and install the compile script. Returns the resulting
file system and the error, if any, that aborted the pipeline; files
written before the abort remain. -/
def buildCharm (source : Bool) (pkgDir charmDir tempDir : Path) (importPath : String)
    (base : Meta) (info : CharmInfo) (gitInitResult godepResult : Option GoError)
    (fs : FS) : FS × Option String :=
  let exe := if source then tempDir ++ ["runhook"] else charmDir ++ ["bin", "runhook"]
  let goFile := charmDir ++ ["src", "runhook", "runhook.go"]
  let fs := fsWrite fs goFile (.text ("generated main package for " ++ importPath))
  let fs := fsWrite fs exe .binary
  let fs := writeHooks source charmDir info.hooks fs
  match writeMeta pkgDir charmDir base info.relations fs with
  | .error e => (fs, some ("cannot write metadata.yaml: " ++ e))
  | .ok fs =>
    let fs := writeConfig charmDir info.config fs
    if source then
      match vendorDeps charmDir gitInitResult godepResult fs with
      | (fs, some e) => (fs, some ("cannot get dependencies: " ++ e.msg))
      | (fs, none) =>
        (fsWrite fs (charmDir ++ ["compile"]) (.text compileScript), none)
    else
      (fs, none)

/-! ## Auxiliary definitions used by the theorem statements -/

/-- An introspected relation role the partition switch rejects. -/
def badRole (r : Relation) : Bool :=
  !(r.role == roleProvider || r.role == roleRequirer || r.role == rolePeer)

/-- The prefix `setenv` searches for, described as the claim does: the
entry's key (the text before the first `'='`) followed by `'='`. -/
def entryKeyEq (entry : String) : String :=
  (entry.toList.takeWhile (fun c => !(c == '='))).asString ++ "="

/-! ## File-system lemmas -/

theorem fsRead_fsWrite_self (fs : FS) (p : Path) (d : FileData) :
    fsRead (fsWrite fs p d) p = some d := by
  induction fs with
  | nil => simp [fsWrite, fsRead]
  | cons e rest ih =>
    obtain ⟨q, x⟩ := e
    by_cases h : q = p <;> simp [fsWrite, fsRead, h, ih]

theorem fsRead_fsWrite_ne (fs : FS) (p q : Path) (d : FileData) (h : q ≠ p) :
    fsRead (fsWrite fs p d) q = fsRead fs q := by
  induction fs with
  | nil => simp [fsWrite, fsRead, Ne.symm h]
  | cons e rest ih =>
    obtain ⟨r, x⟩ := e
    by_cases hr : r = p
    · subst hr
      simp [fsWrite, fsRead, Ne.symm h]
    · by_cases hq : r = q
      · subst hq
        simp [fsWrite, fsRead, hr]
      · simp [fsWrite, fsRead, hr, hq, ih]

theorem fsRead_fsRemoveAll_under (fs : FS) (p q : Path)
    (h : p.isPrefixOf q = true) : fsRead (fsRemoveAll fs p) q = none := by
  induction fs with
  | nil => rfl
  | cons e rest ih =>
    obtain ⟨r, x⟩ := e
    by_cases hp : p.isPrefixOf r
    · simpa [fsRemoveAll, List.filter_cons, hp] using ih
    · have hrq : r ≠ q := by
        rintro rfl; exact hp h
      simpa [fsRemoveAll, List.filter_cons, hp, fsRead, hrq] using ih

theorem fsRead_fsRemoveAll_not_under (fs : FS) (p q : Path)
    (h : p.isPrefixOf q = false) : fsRead (fsRemoveAll fs p) q = fsRead fs q := by
  induction fs with
  | nil => rfl
  | cons e rest ih =>
    obtain ⟨r, x⟩ := e
    by_cases hp : p.isPrefixOf r = true
    · have hrq : r ≠ q := by
        rintro rfl; rw [hp] at h; cases h
      simpa [fsRemoveAll, List.filter_cons, hp, fsRead, hrq] using ih
    · have hp' : p.isPrefixOf r = false := eq_false_of_ne_true hp
      by_cases hq : r = q
      · subst hq
        simp [fsRemoveAll, List.filter_cons, hp', fsRead]
      · simpa [fsRemoveAll, List.filter_cons, hp', fsRead, hq] using ih

theorem fsRead_writeHooks_ne (source : Bool) (charmDir : Path) (hooks : List String)
    (fs : FS) (q : Path) (h : ∀ hk ∈ hooks, charmDir ++ ["hooks", hk] ≠ q) :
    fsRead (writeHooks source charmDir hooks fs) q = fsRead fs q := by
  induction hooks generalizing fs with
  | nil => rfl
  | cons hk rest ih =>
    have step : writeHooks source charmDir (hk :: rest) fs
        = writeHooks source charmDir rest
            (fsWrite fs (charmDir ++ ["hooks", hk]) (.text (hookStub source hk))) := rfl
    rw [step, ih _ (fun a ha => h a (List.mem_cons_of_mem _ ha)),
      fsRead_fsWrite_ne _ _ _ _ (Ne.symm (h hk (List.mem_cons_self _ _)))]

/-! ## List lemmas for path disjointness -/

theorem listAppendInj (a : List String) :
    ∀ {b c : List String}, a ++ b = a ++ c → b = c := by
  induction a with
  | nil => intro b c h; exact h
  | cons x xs ih =>
    intro b c h
    injection h with _ h2
    exact ih h2

theorem charm_sub_ne (charmDir : Path) {s t : List String} (h : s ≠ t) :
    charmDir ++ s ≠ charmDir ++ t :=
  fun he => h (listAppendInj charmDir he)

theorem isPrefixOf_append_self (a b : List String) : a.isPrefixOf (a ++ b) = true := by
  induction a with
  | nil => simp
  | cons x xs ih => simp [List.isPrefixOf, ih]

theorem isPrefixOf_of_append (a b q : List String)
    (h : (a ++ b).isPrefixOf q = true) : a.isPrefixOf q = true := by
  induction a generalizing q with
  | nil => simp
  | cons x xs ih =>
    cases q with
    | nil => simp [List.isPrefixOf] at h
    | cons y ys =>
      simp only [List.cons_append, List.isPrefixOf, Bool.and_eq_true, beq_iff_eq] at h ⊢
      exact ⟨h.1, ih ys h.2⟩

theorem isPrefixOf_length_le (a b : List String)
    (h : a.isPrefixOf b = true) : a.length ≤ b.length := by
  induction a generalizing b with
  | nil => simp
  | cons x xs ih =>
    cases b with
    | nil => simp [List.isPrefixOf] at h
    | cons y ys =>
      simp only [List.isPrefixOf, Bool.and_eq_true] at h
      simpa using ih ys h.2

theorem isPrefixOf_append_of_le (a b c : List String) (hlen : a.length ≤ b.length)
    (h : a.isPrefixOf (b ++ c) = true) : a.isPrefixOf b = true := by
  induction a generalizing b with
  | nil => simp
  | cons x xs ih =>
    cases b with
    | nil => simp at hlen
    | cons y ys =>
      simp only [List.cons_append, List.isPrefixOf, Bool.and_eq_true] at h ⊢
      exact ⟨h.1, ih ys (by simpa using hlen) h.2⟩

/-- When the scratch directory is not inside the charm directory, no path
directly below the charm directory is the scratch executable path. -/
theorem charm_path_ne_exe (charmDir tempDir : Path) (s : List String) (hs : s ≠ [])
    (hsep : charmDir.isPrefixOf tempDir = false) :
    charmDir ++ s ≠ tempDir ++ ["runhook"] := by
  intro he
  have h1 : charmDir.isPrefixOf (tempDir ++ ["runhook"]) = true := by
    rw [← he]; exact isPrefixOf_append_self _ _
  have hlen : charmDir.length ≤ tempDir.length := by
    have hl := congrArg List.length he
    simp only [List.length_append, List.length_cons, List.length_nil] at hl
    have hs1 : 1 ≤ s.length := by
      cases s with
      | nil => exact absurd rfl hs
      | cons _ _ => simp
    omega
  have h2 := isPrefixOf_append_of_le charmDir tempDir ["runhook"] hlen h1
  rw [h2] at hsep
  cases hsep

/-- When the scratch directory is not inside the charm directory, the
transient `.git` tree is not above the scratch executable. -/
theorem gitPath_not_prefixOf_exe (charmDir tempDir : Path)
    (hsep : charmDir.isPrefixOf tempDir = false) :
    (charmDir ++ ["src", "runhook", ".git"]).isPrefixOf (tempDir ++ ["runhook"]) = false := by
  cases hgp : (charmDir ++ ["src", "runhook", ".git"]).isPrefixOf (tempDir ++ ["runhook"]) with
  | false => rfl
  | true =>
    exfalso
    have h1 := isPrefixOf_of_append _ _ _ hgp
    have hl := isPrefixOf_length_le _ _ hgp
    simp only [List.length_append, List.length_cons, List.length_nil] at hl
    have h2 := isPrefixOf_append_of_le charmDir tempDir ["runhook"] (by omega) h1
    rw [h2] at hsep
    cases hsep

/-! ## Relation-partition lemmas -/

theorem badRole_false_cases (r : Relation) (h : badRole r = false) :
    r.role = roleProvider ∨ r.role = roleRequirer ∨ r.role = rolePeer := by
  simp only [badRole, Bool.not_eq_false', Bool.or_eq_true, beq_iff_eq] at h
  tauto

theorem badRole_true_parts (r : Relation) (h : badRole r = true) :
    (r.role == roleProvider) = false ∧ (r.role == roleRequirer) = false ∧
    (r.role == rolePeer) = false := by
  simp only [badRole, Bool.not_eq_true', Bool.or_eq_false_iff] at h
  exact ⟨h.1.1, h.1.2, h.2⟩

theorem relPartition_ok (rels : List (String × Relation)) :
    ∀ m : Meta, (∀ nr ∈ rels, badRole nr.2 = false) →
    relPartition m rels = .ok { m with
      provides := m.provides ++ rels.filter (fun nr => nr.2.role == roleProvider),
      requires := m.requires ++ rels.filter (fun nr => nr.2.role == roleRequirer),
      peers := m.peers ++ rels.filter (fun nr => nr.2.role == rolePeer) } := by
  induction rels with
  | nil => intro m _; simp [relPartition]
  | cons nr rest ih =>
    intro m h
    obtain ⟨n, r⟩ := nr
    have hrest : ∀ nr ∈ rest, badRole nr.2 = false :=
      fun a ha => h a (List.mem_cons_of_mem _ ha)
    rcases badRole_false_cases r (h (n, r) (List.mem_cons_self _ _)) with hp | hq | hpe
    · have h1 : (r.role == roleProvider) = true := by rw [hp]; decide
      have h2 : (r.role == roleRequirer) = false := by rw [hp]; decide
      have h3 : (r.role == rolePeer) = false := by rw [hp]; decide
      simp only [relPartition, h1, h2, h3, Bool.false_eq_true, if_false, if_true,
        List.filter_cons]
      rw [ih _ hrest]
      simp [List.append_assoc]
    · have h1 : (r.role == roleProvider) = false := by rw [hq]; decide
      have h2 : (r.role == roleRequirer) = true := by rw [hq]; decide
      have h3 : (r.role == rolePeer) = false := by rw [hq]; decide
      simp only [relPartition, h1, h2, h3, Bool.false_eq_true, if_false, if_true,
        List.filter_cons]
      rw [ih _ hrest]
      simp [List.append_assoc]
    · have h1 : (r.role == roleProvider) = false := by rw [hpe]; decide
      have h2 : (r.role == roleRequirer) = false := by rw [hpe]; decide
      have h3 : (r.role == rolePeer) = true := by rw [hpe]; decide
      simp only [relPartition, h1, h2, h3, Bool.false_eq_true, if_false, if_true,
        List.filter_cons]
      rw [ih _ hrest]
      simp [List.append_assoc]

theorem relPartition_error (rels : List (String × Relation)) :
    ∀ m : Meta, (∃ nr ∈ rels, badRole nr.2 = true) →
    ∃ e, relPartition m rels = .error e := by
  induction rels with
  | nil => rintro m ⟨nr, hmem, _⟩; cases hmem
  | cons nr rest ih =>
    rintro m ⟨a, hmem, hbad⟩
    obtain ⟨n, r⟩ := nr
    by_cases hb : badRole r = true
    · obtain ⟨h1, h2, h3⟩ := badRole_true_parts r hb
      refine ⟨"unknown role \"" ++ r.role ++ "\" in relation", ?_⟩
      simp only [relPartition, h1, h2, h3, Bool.false_eq_true, if_false]
    · have hb' : badRole r = false := eq_false_of_ne_true hb
      have hmem' : a ∈ rest := by
        rcases List.mem_cons.1 hmem with rfl | hm
        · rw [hbad] at hb'; cases hb'
        · exact hm
      rcases badRole_false_cases r hb' with hp | hq | hpe
      · have h1 : (r.role == roleProvider) = true := by rw [hp]; decide
        obtain ⟨e, he⟩ := ih { m with provides := m.provides ++ [(n, r)] } ⟨a, hmem', hbad⟩
        refine ⟨e, ?_⟩
        simp only [relPartition, h1, if_true]
        exact he
      · have h1 : (r.role == roleProvider) = false := by rw [hq]; decide
        have h2 : (r.role == roleRequirer) = true := by rw [hq]; decide
        obtain ⟨e, he⟩ := ih { m with requires := m.requires ++ [(n, r)] } ⟨a, hmem', hbad⟩
        refine ⟨e, ?_⟩
        simp only [relPartition, h1, h2, Bool.false_eq_true, if_false, if_true]
        exact he
      · have h1 : (r.role == roleProvider) = false := by rw [hpe]; decide
        have h2 : (r.role == roleRequirer) = false := by rw [hpe]; decide
        have h3 : (r.role == rolePeer) = true := by rw [hpe]; decide
        obtain ⟨e, he⟩ := ih { m with peers := m.peers ++ [(n, r)] } ⟨a, hmem', hbad⟩
        refine ⟨e, ?_⟩
        simp only [relPartition, h1, h2, h3, Bool.false_eq_true, if_false, if_true]
        exact he

theorem fsRead_writeConfig_ne (charmDir : Path) (config : List (String × COption))
    (fs : FS) (q : Path) (h : q ≠ charmDir ++ ["config.yaml"]) :
    fsRead (writeConfig charmDir config fs) q = fsRead fs q := by
  unfold writeConfig
  by_cases hc : config.isEmpty
  · rw [if_pos hc]
  · rw [if_neg hc, fsRead_fsWrite_ne _ _ _ _ h]

/-! ## Claim theorems -/

/-- C1: the claim says `writeHooks` leaves a pre-existing hook script's
contents unchanged. Evaluating the embedded `writeHooks` at a bundle
that already contains a hand-edited `hooks/start` file shows the
function overwrites it with a freshly generated stub (the source reads
the existing directory entries but never consults them), so the claim
describes the intended behaviour, not the code's. -/
theorem C1_writeHooks_overwrites_existing_hook :
    fsRead
        (writeHooks false ["c"] ["start"]
          [(["c", "hooks", "start"], .text "# my hand-edited hook\n")])
        ["c", "hooks", "start"]
      = some (.text (hookStub false "start"))
    ∧ hookStub false "start" ≠ "# my hand-edited hook\n" := by
  exact ⟨rfl, by decide⟩

/-- C2: the claim says the declared name in the written metadata equals
the destination bundle directory's base name. Evaluating the pipeline
with package source directory `home/src/wordpress` and destination
charm directory `repo/trusty/mycharm` shows the written name is
"wordpress" — `filepath.Base(b.pkg.Dir)` — and not the destination's
base name "mycharm", although the source comment says the name must
match the (deployed) directory name. -/
theorem C2_meta_name_from_package_dir :
    fsRead
        (buildCharm false ["home", "src", "wordpress"] ["repo", "trusty", "mycharm"]
          ["tmp"] "example.com/wordpress" ⟨"original", "a summary", [], [], []⟩
          ⟨[], [], []⟩ none none []).1
        ["repo", "trusty", "mycharm", "metadata.yaml"]
      = some (.metaFile ⟨"wordpress", "a summary", [], [], []⟩)
    ∧ pathBase ["repo", "trusty", "mycharm"] = "mycharm"
    ∧ ("wordpress" : String) ≠ "mycharm" := by
  refine ⟨rfl, rfl, by decide⟩

/-- C3: the claim says every execution path of every stub ends by
invoking `$CHARM_DIR/bin/runhook` with the hook name. Running the
install stub on the path where the precompiled executable already
exists shows the script runs apt-get and then exits 0 without a single
invocation of the bundle's executable, in either build mode; the
source comment only claims recompilation is skipped there. -/
theorem C3_install_stub_skips_runhook :
    runStmts (fun f => f == "$CHARM_DIR/bin/runhook") (hookScript false "install")
      = [("apt-get", ["--option=Dpkg::Options::=--force-confold",
          "--option=Dpkg::options::=--force-unsafe-io", "--assume-yes", "--quiet",
          "install", "golang", "git", "mercurial"])]
    ∧ runhookInvocations
        (runStmts (fun f => f == "$CHARM_DIR/bin/runhook") (hookScript false "install")) = []
    ∧ runhookInvocations
        (runStmts (fun f => f == "$CHARM_DIR/bin/runhook") (hookScript true "install")) = [] := by
  refine ⟨rfl, rfl, rfl⟩

/-- C6: the claim says the cross-compile environment disables native
interop (cgo). Evaluating `compileEnv` on a process environment that
enables cgo shows the code only appends the misspelled entry
`CGOENABLED=false` and leaves `CGO_ENABLED=1` untouched, so the
toolchain variable that actually controls cgo is unchanged; target OS
and architecture are set as claimed, and with the flag unset the
environment passes through unchanged. -/
theorem C6_cross_compile_env :
    compileEnv ["PATH=/bin", "CGO_ENABLED=1"] true
      = ["PATH=/bin", "CGO_ENABLED=1", "CGOENABLED=false", "GOARCH=amd64", "GOOS=linux"]
    ∧ (∀ env, compileEnv env false = env) := by
  exact ⟨rfl, fun env => rfl⟩

/-- C4 counterexample: with an introspected relation of role "fubar"
the build fails on the unknown role, but the hook stub (and the
executable) have already been written to the bundle — so the claim's
"fails before any file is written" is false as stated. -/
theorem C4_counterexample_files_written_before_role_failure :
    (buildCharm false ["home", "src", "wordpress"] ["c"] ["tmp"] "ip"
        ⟨"original", "a summary", [], [], []⟩
        ⟨["start"], [("db", ⟨"db", "fubar", "mysql"⟩)], []⟩ none none []).2
      = some "cannot write metadata.yaml: unknown role \"fubar\" in relation"
    ∧ fsRead
        (buildCharm false ["home", "src", "wordpress"] ["c"] ["tmp"] "ip"
          ⟨"original", "a summary", [], [], []⟩
          ⟨["start"], [("db", ⟨"db", "fubar", "mysql"⟩)], []⟩ none none []).1
        ["c", "hooks", "start"]
      = some (.text (hookStub false "start"))
    ∧ fsRead
        (buildCharm false ["home", "src", "wordpress"] ["c"] ["tmp"] "ip"
          ⟨"original", "a summary", [], [], []⟩
          ⟨["start"], [("db", ⟨"db", "fubar", "mysql"⟩)], []⟩ none none []).1
        ["c", "bin", "runhook"]
      = some .binary := by
  refine ⟨rfl, rfl, rfl⟩

/-- C5 counterexample: a successful vendoring-mode build leaves no
executable at `bin/runhook` under the destination bundle directory;
the executable was built into the scratch directory and discarded. -/
theorem C5_counterexample_vendored_build_lacks_bin_runhook :
    (buildCharm true ["home", "src", "wordpress"] ["c"] ["tmp"] "ip"
        ⟨"original", "a summary", [], [], []⟩ ⟨["start"], [], []⟩ none none []).2
      = none
    ∧ fsRead
        (buildCharm true ["home", "src", "wordpress"] ["c"] ["tmp"] "ip"
          ⟨"original", "a summary", [], [], []⟩ ⟨["start"], [], []⟩ none none []).1
        ["c", "bin", "runhook"]
      = none
    ∧ fsRead
        (buildCharm true ["home", "src", "wordpress"] ["c"] ["tmp"] "ip"
          ⟨"original", "a summary", [], [], []⟩ ⟨["start"], [], []⟩ none none []).1
        ["tmp", "runhook"]
      = some .binary := by
  refine ⟨rfl, rfl, rfl⟩

/-- C4 (amended): every introspected relation whose role is provider,
requirer, or peer is filed under exactly the matching section of the
written metadata, the three sections are rebuilt entirely from the
introspected relations (the base descriptor's sections are discarded),
and an unrecognized role makes the build fail before the metadata
descriptor (or config descriptor) is written — files from the earlier
pipeline stages (synthesized source, executable, hook stubs) are
already on disk by then. -/
theorem C4_role_partitioning (source : Bool) (pkgDir charmDir tempDir : Path)
    (importPath : String) (base : Meta) (info : CharmInfo)
    (gi gd : Option GoError) (fs : FS)
    (htmp : tempDir ++ ["runhook"] ≠ charmDir ++ ["metadata.yaml"]) :
    ((∀ nr ∈ info.relations, badRole nr.2 = false) →
      ∃ m, metaContent pkgDir base info.relations = .ok m
        ∧ m.provides = info.relations.filter (fun nr => nr.2.role == roleProvider)
        ∧ m.requires = info.relations.filter (fun nr => nr.2.role == roleRequirer)
        ∧ m.peers = info.relations.filter (fun nr => nr.2.role == rolePeer))
    ∧ ((∃ nr ∈ info.relations, badRole nr.2 = true) →
      (buildCharm source pkgDir charmDir tempDir importPath base info gi gd fs).2 ≠ none
      ∧ fsRead (buildCharm source pkgDir charmDir tempDir importPath base info gi gd fs).1
          (charmDir ++ ["metadata.yaml"])
        = fsRead fs (charmDir ++ ["metadata.yaml"])) := by
  constructor
  · intro hgood
    have h := relPartition_ok info.relations
      { base with name := pathBase pkgDir, provides := [], requires := [], peers := [] } hgood
    exact ⟨_, h, by simp, by simp, by simp⟩
  · intro hbad
    obtain ⟨e, he⟩ := relPartition_error info.relations
      { base with name := pathBase pkgDir, provides := [], requires := [], peers := [] } hbad
    have hmc : metaContent pkgDir base info.relations = .error e := he
    have hwm : ∀ fsx, writeMeta pkgDir charmDir base info.relations fsx = .error e := by
      intro fsx
      unfold writeMeta
      rw [hmc]
    simp only [buildCharm, hwm]
    refine ⟨by simp, ?_⟩
    rw [fsRead_writeHooks_ne]
    · rw [fsRead_fsWrite_ne, fsRead_fsWrite_ne]
      · exact charm_sub_ne charmDir (by simp)
      · cases source
        · simp only [if_false, Bool.false_eq_true]
          exact Ne.symm (charm_sub_ne charmDir (by simp))
        · simp only [if_true]
          exact Ne.symm htmp
    · intro hk _
      exact charm_sub_ne charmDir (by simp)

/-- C4 witness: the partition succeeds and files a provider relation
under provides on a concrete good input, and a concrete unknown role
"fubar" aborts the build with an error. -/
theorem C4_role_partitioning_witness :
    (∃ m, metaContent ["home", "src", "wordpress"] ⟨"original", "s", [], [], []⟩
        (CharmInfo.relations ⟨[], [("db", ⟨"db", "provider", "mysql"⟩)], []⟩) = .ok m
      ∧ m.provides = [("db", ⟨"db", "provider", "mysql"⟩)]
      ∧ m.requires = []
      ∧ m.peers = [])
    ∧ (buildCharm false ["p"] ["c"] ["t"] "ip" ⟨"o", "s", [], [], []⟩
        ⟨["start"], [("db", ⟨"db", "fubar", "mysql"⟩)], []⟩ none none []).2 ≠ none := by
  constructor
  · obtain ⟨m, hm, hp, hq, hpe⟩ :=
      (C4_role_partitioning false ["home", "src", "wordpress"] ["c"] ["t"] "ip"
        ⟨"original", "s", [], [], []⟩ ⟨[], [("db", ⟨"db", "provider", "mysql"⟩)], []⟩
        none none [] (by decide)).1 (by decide)
    exact ⟨m, hm, by rw [hp]; rfl, by rw [hq]; rfl, by rw [hpe]; rfl⟩
  · exact ((C4_role_partitioning false ["p"] ["c"] ["t"] "ip" ⟨"o", "s", [], [], []⟩
      ⟨["start"], [("db", ⟨"db", "fubar", "mysql"⟩)], []⟩ none none []
      (by decide)).2 ⟨("db", ⟨"db", "fubar", "mysql"⟩), by decide, by decide⟩).1

/-- C5 (amended): after a successful non-vendoring build the compiled
executable is at `bin/runhook` under the destination bundle directory;
after a successful vendoring build (with the scratch directory outside
the bundle directory) the executable sits discarded in the scratch
directory and the bundle instead carries the `compile` script used to
rebuild it in place on the deployment target. -/
theorem C5_executable_location (pkgDir charmDir tempDir : Path)
    (importPath : String) (base : Meta) (info : CharmInfo)
    (gi gd : Option GoError) (fs : FS) :
    ((buildCharm false pkgDir charmDir tempDir importPath base info gi gd fs).2 = none →
      fsRead (buildCharm false pkgDir charmDir tempDir importPath base info gi gd fs).1
        (charmDir ++ ["bin", "runhook"]) = some .binary)
    ∧ (charmDir.isPrefixOf tempDir = false →
       (buildCharm true pkgDir charmDir tempDir importPath base info gi gd fs).2 = none →
        fsRead (buildCharm true pkgDir charmDir tempDir importPath base info gi gd fs).1
          (tempDir ++ ["runhook"]) = some .binary
        ∧ fsRead (buildCharm true pkgDir charmDir tempDir importPath base info gi gd fs).1
            (charmDir ++ ["compile"]) = some (.text compileScript)) := by
  constructor
  · intro hok
    rcases hmc : metaContent pkgDir base info.relations with e | m
    · exfalso
      have hwm : ∀ fsx, writeMeta pkgDir charmDir base info.relations fsx = .error e := by
        intro fsx; unfold writeMeta; rw [hmc]
      simp only [buildCharm, hwm] at hok
      cases hok
    · have hwm : ∀ fsx, writeMeta pkgDir charmDir base info.relations fsx
          = .ok (fsWrite fsx (charmDir ++ ["metadata.yaml"]) (.metaFile m)) := by
        intro fsx; unfold writeMeta; rw [hmc]
      simp only [buildCharm, hwm, if_false, Bool.false_eq_true]
      rw [fsRead_writeConfig_ne _ _ _ _ (charm_sub_ne charmDir (by simp)),
        fsRead_fsWrite_ne _ _ _ _ (charm_sub_ne charmDir (by simp)),
        fsRead_writeHooks_ne _ _ _ _ _
          (fun hk _ => charm_sub_ne charmDir (by simp)),
        fsRead_fsWrite_self]
  · intro hsep hok
    have hexner : ∀ sub : List String, sub ≠ [] →
        tempDir ++ ["runhook"] ≠ charmDir ++ sub :=
      fun sub hsub => Ne.symm (charm_path_ne_exe charmDir tempDir sub hsub hsep)
    rcases hmc : metaContent pkgDir base info.relations with e | m
    · exfalso
      have hwm : ∀ fsx, writeMeta pkgDir charmDir base info.relations fsx = .error e := by
        intro fsx; unfold writeMeta; rw [hmc]
      simp only [buildCharm, hwm] at hok
      cases hok
    · have hwm : ∀ fsx, writeMeta pkgDir charmDir base info.relations fsx
          = .ok (fsWrite fsx (charmDir ++ ["metadata.yaml"]) (.metaFile m)) := by
        intro fsx; unfold writeMeta; rw [hmc]
      rcases gi with _ | e
      · rcases gd with _ | e
        · simp only [buildCharm, hwm, if_true, vendorDeps, List.append_assoc,
            List.cons_append, List.nil_append]
          constructor
          · rw [fsRead_fsWrite_ne _ _ _ _ (hexner ["compile"] (by simp)),
              fsRead_fsRemoveAll_not_under _ _ _
                (gitPath_not_prefixOf_exe charmDir tempDir hsep),
              fsRead_fsWrite_ne _ _ _ _
                (hexner ["src", "runhook", ".git"] (by simp)),
              fsRead_writeConfig_ne _ _ _ _ (hexner ["config.yaml"] (by simp)),
              fsRead_fsWrite_ne _ _ _ _ (hexner ["metadata.yaml"] (by simp)),
              fsRead_writeHooks_ne _ _ _ _ _
                (fun hk _ => (hexner ["hooks", hk] (by simp)).symm),
              fsRead_fsWrite_self]
          · rw [fsRead_fsWrite_self]
        · exfalso
          simp only [buildCharm, hwm, if_true, vendorDeps] at hok
          cases hok
      · exfalso
        have hv : ∀ fsx, vendorDeps charmDir (some e) gd fsx
            = (fsx, some (.gitInitFailed e)) := fun fsx => rfl
        simp only [buildCharm, hwm, if_true, hv] at hok
        cases hok

/-- C5 witness: a concrete successful build in each mode; without
vendoring the executable is at `bin/runhook`, with vendoring it is in
the scratch directory and the bundle carries the compile script. -/
theorem C5_executable_location_witness :
    fsRead (buildCharm false ["p"] ["c"] ["t"] "ip" ⟨"o", "s", [], [], []⟩
        ⟨["start"], [], []⟩ none none []).1 ["c", "bin", "runhook"] = some .binary
    ∧ fsRead (buildCharm true ["p"] ["c"] ["t"] "ip" ⟨"o", "s", [], [], []⟩
        ⟨["start"], [], []⟩ none none []).1 ["t", "runhook"] = some .binary
    ∧ fsRead (buildCharm true ["p"] ["c"] ["t"] "ip" ⟨"o", "s", [], [], []⟩
        ⟨["start"], [], []⟩ none none []).1 ["c", "compile"]
      = some (.text compileScript) := by
  refine ⟨?_, ?_, ?_⟩
  · exact (C5_executable_location ["p"] ["c"] ["t"] "ip" ⟨"o", "s", [], [], []⟩
      ⟨["start"], [], []⟩ none none []).1 rfl
  · exact ((C5_executable_location ["p"] ["c"] ["t"] "ip" ⟨"o", "s", [], [], []⟩
      ⟨["start"], [], []⟩ none none []).2 (by decide) rfl).1
  · exact ((C5_executable_location ["p"] ["c"] ["t"] "ip" ⟨"o", "s", [], [], []⟩
      ⟨["start"], [], []⟩ none none []).2 (by decide) rfl).2

/-- C7: when the introspected config mapping is empty, `writeConfig`
writes no config descriptor (the file system is returned unchanged,
so no `config.yaml` is created) and succeeds; when it is non-empty it
writes a descriptor wrapping exactly that mapping, and parsing the
written descriptor (parser modelled from the spec, since the
descriptor library is an external collaborator) yields the same
mapping back. -/
theorem C7_writeConfig_omission_roundtrip (charmDir : Path)
    (config : List (String × COption)) (fs : FS) :
    (config = [] → writeConfig charmDir config fs = fs)
    ∧ (config ≠ [] →
        fsRead (writeConfig charmDir config fs) (charmDir ++ ["config.yaml"])
          = some (.configFile ⟨config⟩)
        ∧ parseConfig ⟨config⟩ = config) := by
  constructor
  · rintro rfl
    rfl
  · intro hne
    have hemp : config.isEmpty = false := by
      cases config with
      | nil => exact absurd rfl hne
      | cons a l => rfl
    refine ⟨?_, rfl⟩
    unfold writeConfig
    simp only [hemp, Bool.false_eq_true, if_false]
    exact fsRead_fsWrite_self _ _ _

/-- C7 witness: an empty config writes nothing; the singleton config
option "debug" round-trips through the written descriptor. -/
theorem C7_writeConfig_omission_roundtrip_witness :
    writeConfig ["c"] [] [] = []
    ∧ fsRead (writeConfig ["c"] [("debug", ⟨"boolean", "debug mode", some "false"⟩)] [])
        ["c", "config.yaml"]
      = some (.configFile ⟨[("debug", ⟨"boolean", "debug mode", some "false"⟩)]⟩)
    ∧ parseConfig ⟨[("debug", ⟨"boolean", "debug mode", some "false"⟩)]⟩
      = [("debug", ⟨"boolean", "debug mode", some "false"⟩)] := by
  refine ⟨(C7_writeConfig_omission_roundtrip ["c"] [] []).1 rfl, ?_, ?_⟩
  · exact ((C7_writeConfig_omission_roundtrip ["c"]
      [("debug", ⟨"boolean", "debug mode", some "false"⟩)] []).2 (by decide)).1
  · exact ((C7_writeConfig_omission_roundtrip ["c"]
      [("debug", ⟨"boolean", "debug mode", some "false"⟩)] []).2 (by decide)).2

/-- C8: when `godep save` fails because the executable is absent,
`vendorDeps` returns the distinguished remediation-bearing error
naming the tool and the `go get` command, and this error is a
different constructor from the generic wrapped error returned for any
other failure of the tool. -/
theorem C8_godep_missing_distinguished (charmDir : Path) (fs : FS) (e : GoError) :
    (isExecNotFound e = true →
      (vendorDeps charmDir none (some e) fs).2
        = some (.godepNotFound godepNotFoundMsg))
    ∧ (isExecNotFound e = false →
      (vendorDeps charmDir none (some e) fs).2 = some (.godepFailed e))
    ∧ godepNotFoundMsg
      = "godep executable not found; get it with: go get github.com/tools/godep"
    ∧ (∀ s e2, VendorError.godepNotFound s ≠ VendorError.godepFailed e2) := by
  refine ⟨?_, ?_, rfl, fun s e2 => by simp⟩
  · intro h
    simp only [vendorDeps, h, if_true]
  · intro h
    simp only [vendorDeps, h, Bool.false_eq_true, if_false]

/-- C8 witness: the absent-tool outcome maps to the distinguished
error, a generic failure maps to the wrapped error. -/
theorem C8_godep_missing_distinguished_witness :
    (vendorDeps ["c"] none (some .execNotFound) []).2
      = some (.godepNotFound godepNotFoundMsg)
    ∧ (vendorDeps ["c"] none (some (.generic "boom")) []).2
      = some (.godepFailed (.generic "boom")) := by
  exact ⟨(C8_godep_missing_distinguished ["c"] [] .execNotFound).1 rfl,
    (C8_godep_missing_distinguished ["c"] [] (.generic "boom")).2.1 rfl⟩

/-- C9: once `git init` has created the transient `.git` tree inside
the bundle's embedded source tree, `vendorDeps` removes it before
returning, whether `godep save` succeeds or fails — nothing at or
under the `.git` path remains in the resulting file system. -/
theorem C9_transient_git_removed (charmDir : Path) (godepResult : Option GoError)
    (fs : FS) (q : Path)
    (h : (charmDir ++ ["src", "runhook", ".git"]).isPrefixOf q = true) :
    fsRead (vendorDeps charmDir none godepResult fs).1 q = none := by
  have h2 : ((charmDir ++ ["src", "runhook"]) ++ [".git"]).isPrefixOf q = true := by
    rw [List.append_assoc]
    exact h
  rcases godepResult with _ | e
  · simp only [vendorDeps]
    exact fsRead_fsRemoveAll_under _ _ _ h2
  · simp only [vendorDeps]
    exact fsRead_fsRemoveAll_under _ _ _ h2

/-- C9 witness: pre-existing data under `.git` is gone after a
successful run, and the `.git` entry itself is gone after a failed
`godep save`. -/
theorem C9_transient_git_removed_witness :
    fsRead (vendorDeps ["c"] none none
        [(["c", "src", "runhook", ".git", "HEAD"], .text "ref")]).1
      ["c", "src", "runhook", ".git", "HEAD"] = none
    ∧ fsRead (vendorDeps ["c"] none (some (.generic "boom")) []).1
        ["c", "src", "runhook", ".git"] = none := by
  exact ⟨C9_transient_git_removed ["c"] none
      [(["c", "src", "runhook", ".git", "HEAD"], .text "ref")]
      ["c", "src", "runhook", ".git", "HEAD"] (by decide),
    C9_transient_git_removed ["c"] (some (.generic "boom")) []
      ["c", "src", "runhook", ".git"] (by decide)⟩

/-! ## setenv lemmas -/

theorem eqIndexAux_none_iff (l : List Char) : eqIndexAux l = none ↔ '=' ∉ l := by
  induction l with
  | nil => simp [eqIndexAux]
  | cons c cs ih =>
    by_cases hc : c = '='
    · subst hc
      simp [eqIndexAux]
    · have hb : (c == '=') = false := by simp [hc]
      simp [eqIndexAux, hb, ih, Ne.symm hc, hc]

theorem eqIndexAux_take (l : List Char) :
    ∀ i : Nat, eqIndexAux l = some i →
    l.take (i + 1) = l.takeWhile (fun c => !(c == '=')) ++ ['='] := by
  induction l with
  | nil => intro i h; cases h
  | cons c cs ih =>
    intro i h
    by_cases hc : c = '='
    · subst hc
      simp [eqIndexAux] at h
      subst h
      simp [List.take, List.takeWhile]
    · have hb : (c == '=') = false := by simp [hc]
      simp only [eqIndexAux, hb, Bool.false_eq_true, if_false, Option.map_eq_some'] at h
      obtain ⟨j, hj, rfl⟩ := h
      rw [List.take_succ_cons, ih j hj]
      simp [List.takeWhile_cons, hb]

theorem setenvLoop_mem (entry pre : String) (env : List String) :
    entry ∈ setenvLoop entry pre env := by
  induction env with
  | nil => simp [setenvLoop]
  | cons e rest ih =>
    unfold setenvLoop
    by_cases h : goHasPrefix e pre = true
    · simp [h]
    · have h2 : goHasPrefix e pre = false := eq_false_of_ne_true h
      simp [h2, ih]

theorem setenvLoop_no_match (entry pre : String) (env : List String)
    (h : ∀ e ∈ env, goHasPrefix e pre = false) :
    setenvLoop entry pre env = env ++ [entry] := by
  induction env with
  | nil => rfl
  | cons e rest ih =>
    have he := h e (List.mem_cons_self _ _)
    simp only [setenvLoop, he, Bool.false_eq_true, if_false, List.cons_append,
      List.cons.injEq, true_and]
    exact ih (fun e2 h2 => h e2 (List.mem_cons_of_mem _ h2))

theorem setenvLoop_first (entry pre : String) (a : List String) (x : String)
    (b : List String) (ha : ∀ e ∈ a, goHasPrefix e pre = false)
    (hx : goHasPrefix x pre = true) :
    setenvLoop entry pre (a ++ x :: b) = a ++ entry :: b := by
  induction a with
  | nil => simp [setenvLoop, hx]
  | cons e rest ih =>
    have he := ha e (List.mem_cons_self _ _)
    simp only [List.cons_append, setenvLoop, he, Bool.false_eq_true, if_false,
      List.cons.injEq, true_and]
    exact ih (fun e2 h2 => ha e2 (List.mem_cons_of_mem _ h2))

/-- C10: for every environment list and entry containing `'='`,
`setenv` returns a list containing the entry; it appends the entry
when no element starts with the entry's key followed by `'='`, and
otherwise replaces exactly the first such element, leaving all other
elements unchanged; it panics (modelled as `none`) exactly when the
entry contains no `'='`. -/
theorem C10_setenv_spec (env : List String) (entry : String) :
    (setenv env entry = none ↔ '=' ∉ entry.toList)
    ∧ (∀ l, setenv env entry = some l →
        entry ∈ l
        ∧ ((∀ e ∈ env, goHasPrefix e (entryKeyEq entry) = false) →
            l = env ++ [entry])
        ∧ (∀ a x b, env = a ++ x :: b →
            (∀ e ∈ a, goHasPrefix e (entryKeyEq entry) = false) →
            goHasPrefix x (entryKeyEq entry) = true →
            l = a ++ entry :: b)) := by
  rcases hq : eqIndexAux entry.toList with _ | i
  · constructor
    · simp only [setenv, eqIndex, hq]
      simpa using (eqIndexAux_none_iff _).1 hq
    · intro l hl
      simp only [setenv, eqIndex, hq] at hl
      cases hl
  · have hpre : (entry.toList.take (i + 1)).asString = entryKeyEq entry := by
      rw [eqIndexAux_take entry.toList i hq]
      rfl
    constructor
    · simp only [setenv, eqIndex, hq]
      refine iff_of_false (by simp) ?_
      intro hmem
      rw [(eqIndexAux_none_iff _).2 hmem] at hq
      cases hq
    · intro l hl
      simp only [setenv, eqIndex, hq, hpre, Option.some.injEq] at hl
      subst hl
      refine ⟨setenvLoop_mem _ _ _, ?_, ?_⟩
      · intro hnone
        exact setenvLoop_no_match _ _ _ hnone
      · intro a x b henv ha hx
        rw [henv]
        exact setenvLoop_first _ _ _ _ _ ha hx

/-- C10 witness: a concrete panic on an entry without `'='`, a concrete
first-match replacement, and a concrete append when nothing matches. -/
theorem C10_setenv_spec_witness :
    setenv ["A=1"] "NOEQ" = none
    ∧ (∃ l, setenv ["PATH=/bin", "GOOS=darwin", "GOOS=plan9"] "GOOS=linux" = some l
        ∧ "GOOS=linux" ∈ l
        ∧ l = ["PATH=/bin"] ++ "GOOS=linux" :: ["GOOS=plan9"])
    ∧ (∃ l2, setenv ["A=1"] "B=2" = some l2 ∧ l2 = ["A=1"] ++ ["B=2"]) := by
  refine ⟨?_, ?_, ?_⟩
  · exact (C10_setenv_spec ["A=1"] "NOEQ").1.mpr (by decide)
  · have hs : setenv ["PATH=/bin", "GOOS=darwin", "GOOS=plan9"] "GOOS=linux"
        = some ["PATH=/bin", "GOOS=linux", "GOOS=plan9"] := rfl
    obtain ⟨hmem, -, hfirst⟩ :=
      (C10_setenv_spec ["PATH=/bin", "GOOS=darwin", "GOOS=plan9"] "GOOS=linux").2 _ hs
    exact ⟨_, hs, hmem,
      hfirst ["PATH=/bin"] "GOOS=darwin" ["GOOS=plan9"] rfl (by decide) (by decide)⟩
  · have hs : setenv ["A=1"] "B=2" = some ["A=1", "B=2"] := rfl
    obtain ⟨-, hno, -⟩ := (C10_setenv_spec ["A=1"] "B=2").2 _ hs
    exact ⟨_, hs, hno (by decide)⟩

end Gocharm
